import Mathlib

/-!
Verification of the task-maker execution engine core against its
natural-language specification.

The definitions below are a shallow embedding of the Rust sources:
`task-maker-store/src/lib.rs` (file store), `task-maker-cache/src/lib.rs`
(execution cache), `task-maker-exec/src/worker.rs` (worker loop) and
`task-maker-exec/src/client.rs` (client file callbacks).  Machine floats
(`f64` seconds of cpu/wall time) are embedded as rationals, byte blobs as
`List Nat`, and the BLAKE2b content hash is embedded as the content itself
(a collision-free abstraction: two blobs share a key iff they share bytes).
Parts of the repository that the source snapshot does not contain
(`task-maker-cache/src/entry.rs`, `key.rs`, `storage.rs` and the
`task-maker-dag` crate) are modelled from the specification; each such
definition carries a doc comment starting with `Modelled from the spec:`.
-/

/-- Association-list lookup by key, mirroring `HashMap::get`. -/
def lookupKey {α β : Type} [DecidableEq α] : List (α × β) → α → Option β
  | [], _ => none
  | (a, b) :: rest, k => if a = k then some b else lookupKey rest k

/-- Association-list update, mirroring `HashMap::insert`: replaces the
binding if the key is present, otherwise appends it. -/
def setKey {α β : Type} [DecidableEq α] : List (α × β) → α → β → List (α × β)
  | [], k, v => [(k, v)]
  | (a, b) :: rest, k, v =>
    if a = k then (k, v) :: rest else (a, b) :: setKey rest k v

/-- Association-list removal, mirroring `HashMap::remove`. -/
def eraseKey {α β : Type} [DecidableEq α] : List (α × β) → α → List (α × β)
  | [], _ => []
  | (a, b) :: rest, k =>
    if a = k then rest else (a, b) :: eraseKey rest k

theorem lookupKey_setKey_self {α β : Type} [DecidableEq α]
    (l : List (α × β)) (k : α) (v : β) : lookupKey (setKey l k v) k = some v := by
  induction l with
  | nil => simp [setKey, lookupKey]
  | cons hd tl ih =>
    obtain ⟨a, b⟩ := hd
    by_cases h : a = k
    · simp [setKey, h, lookupKey]
    · simp [setKey, h, lookupKey, ih]

/-- Logical identifier of a file inside a DAG (`FileUuid`). -/
abbrev FileUuid := Nat

/-- Content of a blob: its byte sequence. -/
abbrev FileContent := List Nat

/-- Content hash of a blob (`FileStoreKey.hash`).  The BLAKE2b digest is
embedded as the byte sequence itself: a collision-free abstraction of the
hash. -/
abbrev FileStoreKey := List Nat

/-- Abstraction of `FileStoreKey::from_file`: hash of a blob's bytes. -/
def hashContent (c : FileContent) : FileStoreKey := c

/-- A blob file on disk: its bytes, its permission bit
(`mark_readonly` clears the write bit) and whether its `created` and
`modified` timestamps agree (the integrity fast path of
`check_integrity`). -/
structure DiskFile where
  content : FileContent
  readonly : Bool
  freshTimestamps : Bool
deriving DecidableEq

/-- State of the `FileStore`: the blob files on disk (indexed by the key
their path is derived from), the persistence-timestamp index
(`FileStoreData.items`, seconds), and the current time. -/
structure FileStoreState where
  disk : List (FileStoreKey × DiskFile)
  items : List (FileStoreKey × Int)
  now : Int
deriving DecidableEq

/-- `PERSISTENCY_DURATION`: how long a file must persist after an access. -/
def persistencyDuration : Int := 600

/-- `FileStore::check_integrity`: if the file's `created` and `modified`
timestamps agree the file is trusted, otherwise it is re-hashed and the
digest compared with the key. -/
def checkIntegrity (f : DiskFile) (k : FileStoreKey) : Bool :=
  f.freshTimestamps || (hashContent f.content == k)

/-- `FileStore::has_key`: false if the path does not exist; if the file
fails the integrity check it is dropped from the index and unlinked, and
the call returns false. -/
def FileStoreState.hasKeyStep (s : FileStoreState) (k : FileStoreKey) :
    FileStoreState × Bool :=
  match lookupKey s.disk k with
  | none => (s, false)
  | some f =>
    if checkIntegrity f k then (s, true)
    else ({ s with disk := eraseKey s.disk k, items := eraseKey s.items k }, false)

/-- Pure variant of the store membership test used when the cache
rematerializes output handles from a `&FileStore` (no mutation is
possible through the shared reference): the blob is on disk and passes
the integrity check. -/
def FileStoreState.hasKeyPure (s : FileStoreState) (k : FileStoreKey) : Bool :=
  match lookupKey s.disk k with
  | none => false
  | some f => checkIntegrity f k

/-- `FileStore::store`: if the key is already present the iterator is
consumed and the entry is marked persistent; otherwise the bytes are
written to the hash-derived path, the file is made read-only and the
entry is marked persistent.  The second component is the number of
chunks consumed from the iterator (both paths consume all of them). -/
def FileStoreState.store (s : FileStoreState) (k : FileStoreKey)
    (chunks : List FileContent) : FileStoreState × Nat :=
  let step := s.hasKeyStep k
  let s1 := step.1
  if step.2 then
    ({ s1 with items := setKey s1.items k (s1.now + persistencyDuration) },
      chunks.length)
  else
    let f : DiskFile := { content := chunks.flatten, readonly := true,
                          freshTimestamps := true }
    ({ s1 with disk := setKey s1.disk k f,
               items := setKey s1.items k (s1.now + persistencyDuration) },
      chunks.length)

/-- `FileStore::get`: `None` (dropping the stale index entry) if the path
does not exist; drop and unlink the blob on an integrity failure;
otherwise refresh the persistence timestamp and return the path
(represented by the key it is derived from). -/
def FileStoreState.get (s : FileStoreState) (k : FileStoreKey) :
    FileStoreState × Option FileStoreKey :=
  match lookupKey s.disk k with
  | none => ({ s with items := eraseKey s.items k }, none)
  | some f =>
    if checkIntegrity f k then
      ({ s with items := setKey s.items k (s.now + persistencyDuration) }, some k)
    else
      ({ s with disk := eraseKey s.disk k, items := eraseKey s.items k }, none)

/-- Total number of bytes stored on disk by the store. -/
def FileStoreState.totalSize (s : FileStoreState) : Nat :=
  (s.disk.map (fun p => p.2.content.length)).sum

/-- Outcome of reading the `store_info` index file on construction:
the file is absent (a fresh empty index is written first), it parses into
an item list, or `serde_json` fails to parse it. -/
inductive IndexLoad where
  | missing
  | parsed (items : List (FileStoreKey × Int))
  | corrupt
deriving DecidableEq

/-- `FileStore::new`: creates the directory, writes a fresh empty index
when `store_info` is absent, then calls `read_store_file`, which parses
the index (propagating the parse error with `?`) and drops the entries
whose blob file no longer exists. -/
def FileStore.new (load : IndexLoad) (disk : List (FileStoreKey × DiskFile))
    (now : Int) : Except String FileStoreState :=
  match load with
  | .missing => .ok { disk := disk, items := [], now := now }
  | .parsed items =>
    .ok { disk := disk,
          items := items.filter (fun p => (lookupKey disk p.1).isSome),
          now := now }
  | .corrupt => .error "cannot parse store_info"

/-- Resource usage measured by the sandbox
(`ExecutionResourcesUsage`); `f64` seconds embedded as rationals,
memory in KiB. -/
structure ExecutionResourcesUsage where
  cpu_time : Rat
  sys_time : Rat
  wall_time : Rat
  memory : Nat
deriving DecidableEq

/-- Resource limits of an execution (`ExecutionLimits`), restricted to
the four dimensions the status categorization uses; a missing limit
denotes infinity. -/
structure ExecutionLimits where
  cpu_time : Option Rat
  sys_time : Option Rat
  wall_time : Option Rat
  memory : Option Nat
deriving DecidableEq

/-- Status of a completed execution (`ExecutionStatus`). -/
inductive ExecutionStatus where
  | Success
  | ReturnCode (code : Nat)
  | Signal (sig : Nat) (name : String)
  | TimeLimitExceeded
  | SysTimeLimitExceeded
  | WallTimeLimitExceeded
  | MemoryLimitExceeded
  | InternalError (message : String)
deriving DecidableEq

/-- Modelled from the spec: `ExecutionStatus::is_success` of the absent
`task-maker-dag` crate — only a `Success` status is successful, every
other status is a failure ("when any dependency produced a
non-successful result"). -/
def ExecutionStatus.is_success : ExecutionStatus → Bool
  | .Success => true
  | _ => false

/-- Whether the status is a failure caused by a resource limit
(wall/cpu/memory exceeded, with cpu covering both user and system
time). -/
def ExecutionStatus.isLimitFailure : ExecutionStatus → Bool
  | .TimeLimitExceeded => true
  | .SysTimeLimitExceeded => true
  | .WallTimeLimitExceeded => true
  | .MemoryLimitExceeded => true
  | _ => false

/-- One resource dimension of the "less restrictive" comparison: the
dimension is unconstrained on the left, or constrained on both sides
with the left value numerically greater-or-equal; a left constraint
against an unconstrained right side also passes, because only the
dimensions present on the right are compared. -/
def dimLessRestrictive {α : Type} [LinearOrder α] :
    Option α → Option α → Bool
  | _, none => true
  | none, some _ => true
  | some a, some b => decide (b ≤ a)

/-- Modelled from the spec: the limits partial order of the absent
`task-maker-dag` crate — "`L1 ≤ L2` (`L1` is less restrictive than
`L2`) iff for every limit dimension present in `L2`, the corresponding
value in `L1` is either absent (infinite) or numerically ≥ that of
`L2`". -/
def ExecutionLimits.less_restrictive (l1 l2 : ExecutionLimits) : Bool :=
  dimLessRestrictive l1.cpu_time l2.cpu_time &&
  dimLessRestrictive l1.sys_time l2.sys_time &&
  dimLessRestrictive l1.wall_time l2.wall_time &&
  dimLessRestrictive l1.memory l2.memory

/-- A single execution of the DAG (`Execution`), restricted to the
fields the cache key, the cache compatibility check and the status
categorization read. -/
structure Execution where
  command : String
  args : List String
  env : List (String × String)
  limits : ExecutionLimits
  stdin : Option FileUuid
  inputs : List (String × FileUuid × Bool)
  outputs : List (String × FileUuid)
deriving DecidableEq

/-- Modelled from the spec: `Execution::status` of the absent
`task-maker-dag` crate — the status categorization applies the
execution's limits to the measured resource usage ("recompute status
categorization against `L2` using the recorded resource usage"), then
reports the signal, then a nonzero exit code, and `Success`
otherwise. -/
def Execution.status (e : Execution) (exit_status : Nat)
    (signal : Option (Nat × String)) (r : ExecutionResourcesUsage) :
    ExecutionStatus :=
  if (e.limits.cpu_time.map (fun l => decide (l < r.cpu_time))).getD false then
    .TimeLimitExceeded
  else if (e.limits.sys_time.map (fun l => decide (l < r.sys_time))).getD false then
    .SysTimeLimitExceeded
  else if (e.limits.wall_time.map (fun l => decide (l < r.wall_time))).getD false then
    .WallTimeLimitExceeded
  else if (e.limits.memory.map (fun l => decide (l < r.memory))).getD false then
    .MemoryLimitExceeded
  else
    match signal with
    | some (s, name) => .Signal s name
    | none => if exit_status ≠ 0 then .ReturnCode exit_status else .Success

/-- A group of executions, the unit of scheduling and caching
(`ExecutionGroup`); the FIFOs are represented by their sandbox paths. -/
structure ExecutionGroup where
  executions : List Execution
  fifo : List String
deriving DecidableEq

/-- The logical files declared as outputs by the group's executions. -/
def ExecutionGroup.outputUuids (g : ExecutionGroup) : List FileUuid :=
  g.executions.flatMap (fun e => e.outputs.map (fun p => p.2))

/-- Result of an execution (`ExecutionResult`). -/
structure ExecutionResult where
  status : ExecutionStatus
  was_killed : Bool
  was_cached : Bool
  resources : ExecutionResourcesUsage
  stdout : Option FileContent
  stderr : Option FileContent
deriving DecidableEq

/-- Modelled from the spec: the `CacheKey` of the absent
`task-maker-cache/src/key.rs` — a fingerprint of the group's commands,
arguments, environments, stdin bindings, input bindings resolved to
content keys, output declarations and FIFO structure; limits,
description, tag and priority are excluded.  The hash is embedded as
the canonicalized data itself (sorting of the environment and input
lists is omitted: it never distinguishes two identical groups). -/
structure CacheKey where
  commands : List (String × List String × List (String × String))
  stdins : List (Option (Option FileStoreKey))
  inputs : List (List (String × Option FileStoreKey × Bool))
  outputs : List (List String)
  fifo : List String
deriving DecidableEq

/-- Modelled from the spec: `CacheKey::from_execution_group` — the
fingerprint computed from the group's metadata and the hashes of its
inputs, taken from the `FileUuid → FileStoreKey` resolution map. -/
def CacheKey.from_execution_group (g : ExecutionGroup)
    (m : List (FileUuid × FileStoreKey)) : CacheKey :=
  { commands := g.executions.map (fun e => (e.command, e.args, e.env))
    stdins := g.executions.map (fun e => e.stdin.map (lookupKey m))
    inputs := g.executions.map
      (fun e => e.inputs.map (fun p => (p.1, lookupKey m p.2.1, p.2.2)))
    outputs := g.executions.map (fun e => e.outputs.map (fun p => p.1))
    fifo := g.fifo }

/-- Modelled from the spec: one per-execution item of a cache entry —
"one {per-execution result, per-execution output-keys, limits snapshot}
record". -/
structure CacheItem where
  result : ExecutionResult
  limits : ExecutionLimits
deriving DecidableEq

/-- Modelled from the spec: a `CacheEntry` of the absent
`task-maker-cache/src/entry.rs` — the per-execution items together with
the map from output `FileUuid` to the recorded `FileStoreKey`. -/
structure CacheEntry where
  items : List CacheItem
  outputs : List (FileUuid × FileStoreKey)
deriving DecidableEq

/-- Modelled from the spec: `CacheEntry::from_execution_group` — builds
the entry from the group, the resolution map and the results, snapshotting
each execution's limits and recording the store keys of the declared
outputs. -/
def CacheEntry.from_execution_group (g : ExecutionGroup)
    (m : List (FileUuid × FileStoreKey)) (result : List ExecutionResult) :
    CacheEntry :=
  { items := List.zipWith (fun e r => { result := r, limits := e.limits })
      g.executions result
    outputs := g.outputUuids.filterMap
      (fun u => (lookupKey m u).map (fun k => (u, k))) }

/-- Modelled from the spec: rematerialization of an entry's output
handles from the file store ("attempt to rematerialize its output
handles from the FS") — succeeds iff every recorded output key is still
present and intact in the store; a handle is represented by the key it
protects. -/
def CacheEntry.outputsFor (e : CacheEntry) (store : FileStoreState) :
    Option (List (FileUuid × FileStoreKey)) :=
  if e.outputs.all (fun p => store.hasKeyPure p.2) then some e.outputs else none

/-- Modelled from the spec: the per-execution compatibility rule of the
absent `task-maker-cache/src/entry.rs`, "the heart of the cache" —
a `Success` entry is reusable when the recorded limits `L1` are less
restrictive than the new limits `L2`; a failure by a resource limit is
reusable when `L2` is less restrictive than `L1`; a signal or return
code is limit-independent and always reusable; anything else
(an internal error) is not compatible. -/
def CacheItem.is_compatible (item : CacheItem) (e : Execution) : Bool :=
  match item.result.status with
  | .Success => item.limits.less_restrictive e.limits
  | .TimeLimitExceeded => e.limits.less_restrictive item.limits
  | .SysTimeLimitExceeded => e.limits.less_restrictive item.limits
  | .WallTimeLimitExceeded => e.limits.less_restrictive item.limits
  | .MemoryLimitExceeded => e.limits.less_restrictive item.limits
  | .Signal _ _ => true
  | .ReturnCode _ => true
  | .InternalError _ => false

/-- Modelled from the spec: `CacheEntry::is_compatible` — the entry is
compatible with the group when every execution is compatible with its
recorded item (the executions and items are paired in order, as in the
result-building loop of `Cache::get`). -/
def CacheEntry.is_compatible (e : CacheEntry) (g : ExecutionGroup) : Bool :=
  (g.executions.zip e.items).all (fun p => p.2.is_compatible p.1)

/-- Modelled from the spec: equality of the limit snapshots of two
entries, used by `Cache::insert` to "replace any entry with identical
limits". -/
def CacheEntry.same_limits (e1 e2 : CacheEntry) : Bool :=
  e1.items.map (fun i => i.limits) == e2.items.map (fun i => i.limits)

/-- The cache data: `entries: HashMap<CacheKey, Vec<CacheEntry>>`. -/
structure Cache where
  entries : List (CacheKey × List CacheEntry)
deriving DecidableEq

/-- The result of a cache query (`CacheResult`). -/
inductive CacheResult where
  | Miss
  | Hit (result : List ExecutionResult) (outputs : List (FileUuid × FileStoreKey))
deriving DecidableEq

/-- Whether a cache query produced a hit. -/
def CacheResult.isHit : CacheResult → Bool
  | .Miss => false
  | .Hit _ _ => true

/-- `Cache::new`: when `cache.bin` exists its content is loaded by
`storage::load` (whose outcome is a parameter here, the file
`storage.rs` being absent from the snapshot); a load failure is logged
and replaced by the empty entry map (`entries.unwrap_or_default()`),
and the constructor returns `Ok` in every case. -/
def Cache.new (fileExists : Bool)
    (load : Except String (List (CacheKey × List CacheEntry))) :
    Except String Cache :=
  if fileExists then
    .ok { entries := match load with
                     | .ok entries => entries
                     | .error _ => [] }
  else
    .ok { entries := [] }

/-- `Cache::insert`: compute the key, build the entry, replace the
first stored entry with the same limits or append. -/
def Cache.insert (c : Cache) (g : ExecutionGroup)
    (m : List (FileUuid × FileStoreKey)) (result : List ExecutionResult) :
    Cache :=
  let key := CacheKey.from_execution_group g m
  let set := (lookupKey c.entries key).getD []
  let entry := CacheEntry.from_execution_group g m result
  let newSet :=
    match set.findIdx? (fun e => e.same_limits entry) with
    | some pos => set.set pos entry
    | none => set ++ [entry]
  { c with entries := setKey c.entries key newSet }

/-- The result-building loop body of `Cache::get`: the recorded exit
code and signal are extracted from the stored status, and the status is
recomputed from the new execution's limits and the recorded resource
usage; `was_cached` is set. -/
def recomputeResult (exec : Execution) (item : CacheItem) : ExecutionResult :=
  let exit_status := match item.result.status with
                     | .ReturnCode c => c
                     | _ => 0
  let signal := match item.result.status with
                | .Signal s name => some (s, name)
                | _ => none
  { status := exec.status exit_status signal item.result.resources
    was_killed := item.result.was_killed
    was_cached := true
    resources := item.result.resources
    stdout := item.result.stdout
    stderr := item.result.stderr }

/-- The results returned by a cache hit: the recomputation applied to
each (execution, item) pair in order. -/
def hitResults (g : ExecutionGroup) (e : CacheEntry) : List ExecutionResult :=
  (g.executions.zip e.items).map (fun p => recomputeResult p.1 p.2)

/-- The entry-scanning loop of `Cache::get`: entries whose outputs
cannot be rematerialized are skipped, the first compatible entry whose
outputs materialize produces the hit. -/
def getLoop (g : ExecutionGroup) (store : FileStoreState) :
    List CacheEntry → CacheResult
  | [] => .Miss
  | e :: rest =>
    match e.outputsFor store with
    | none => getLoop g store rest
    | some outs =>
      if e.is_compatible g then .Hit (hitResults g e) outs
      else getLoop g store rest

/-- `Cache::get`: compute the key, miss when it is absent, otherwise
scan the stored entries. -/
def Cache.get (c : Cache) (g : ExecutionGroup)
    (m : List (FileUuid × FileStoreKey)) (store : FileStoreState) :
    CacheResult :=
  match lookupKey c.entries (CacheKey.from_execution_group g m) with
  | none => .Miss
  | some set => getLoop g store set

/-- `Cache::is_cacheable`: a result is allowed in the cache unless its
status is an internal error. -/
def Cache.is_cacheable (result : ExecutionResult) : Bool :=
  match result.status with
  | .InternalError _ => false
  | _ => true

/-- The `write_to` file callback registered by the client
(`WriteToCallback`): destination path, whether the file must be made
executable, and whether the write is performed even for a failed
file. -/
structure WriteToCallback where
  dest : String
  executable : Bool
  allow_failure : Bool
deriving DecidableEq

/-- The callbacks registered for one watched file (`FileCallbacks`):
an optional write-to-disk sink and an optional buffer-and-invoke sink,
represented by its byte limit (the invoked function itself is outside
the model; the buffer it would receive is returned). -/
structure FileCallbacks where
  write_to : Option WriteToCallback
  get_content : Option Nat
deriving DecidableEq

/-- A file of the client's file system: its bytes and its mode. -/
structure FileEntry where
  content : FileContent
  mode : Nat
deriving DecidableEq

/-- Mode of a freshly created file (`File::create` under the default
umask). -/
def defaultMode : Nat := 0o644

/-- The buffer filled chunk by chunk for the `get_content` callback:
each chunk extends the buffer by at most the room left under the
limit. -/
def buildBuffer (limit : Nat) (chunks : List FileContent) : FileContent :=
  chunks.foldl
    (fun buf c =>
      if buf.length < limit then buf ++ c.take (min c.length (limit - buf.length))
      else buf)
    []

/-- The `chmod 0755` performed on the destination after the stream ends:
the mode of the entry at that path is set to `0755`. -/
def chmodKey : List (String × FileEntry) → String → List (String × FileEntry)
  | [], _ => []
  | (a, b) :: rest, d =>
    if a = d then (a, { b with mode := 0o755 }) :: chmodKey rest d
    else (a, b) :: chmodKey rest d

/-- `process_provided_file` of `client.rs`: with no registered callback
the stream is only consumed.  With callbacks, the destination file is
opened unless the file was not successful and failure is not allowed,
or the source path hint equals the destination (self-write protection);
the chunks are streamed to the open file and into the bounded buffer;
after the stream, if the callback is executable and the destination
exists its mode is set to `0755`; the captured buffer is handed to the
`get_content` callback (returned here).  Paths are compared already
canonicalized. -/
def processProvidedFile (file_callbacks : List (FileUuid × FileCallbacks))
    (uuid : FileUuid) (success : Bool) (chunks : List FileContent)
    (source_path_hint : Option String) (fs : List (String × FileEntry)) :
    List (String × FileEntry) × Option FileContent :=
  match lookupKey file_callbacks uuid with
  | none => (fs, none)
  | some callback =>
    let limit := callback.get_content.getD 0
    let writeDest : Option String :=
      match callback.write_to with
      | some w =>
        if !success && !w.allow_failure then none
        else if source_path_hint = some w.dest then none
        else some w.dest
      | none => none
    let fs1 := match writeDest with
      | some d => setKey fs d { content := chunks.flatten, mode := defaultMode }
      | none => fs
    let fs2 := match callback.write_to with
      | some w =>
        if w.executable && (lookupKey fs1 w.dest).isSome then chmodKey fs1 w.dest
        else fs1
      | none => fs1
    (fs2, callback.get_content.map (fun _ => buildBuffer limit chunks))

/-- A message from the worker to the server (`WorkerClientMessage`);
a file transfer is a `ProvideFile` announcement followed by data frames
and an end-of-file frame (`ChannelFileSender`). -/
inductive WorkerClientMessage where
  | GetWork
  | AskFile (key : FileStoreKey)
  | WorkerDone (result : List ExecutionResult)
      (outputs : List (FileUuid × FileStoreKey))
  | ProvideFile (uuid : FileUuid) (key : FileStoreKey)
  | FileData (chunk : FileContent)
  | FileEnd
deriving DecidableEq

/-- The frames of one output-file upload: the announcement followed by
the data chunks and the end-of-file frame. -/
def uploadFrames (uuid : FileUuid) (key : FileStoreKey)
    (chunks : List FileContent) : List WorkerClientMessage :=
  .ProvideFile uuid key :: (chunks.map .FileData ++ [.FileEnd])

/-- The message sequence `sandbox_group_manager` sends on the
worker-to-server channel once every sandbox of the group has finished:
the `WorkerDone` message carrying the results and output keys, then the
upload of every output file, then a `GetWork` request. -/
def managerMessages (results : List ExecutionResult)
    (outputs : List (FileUuid × FileStoreKey))
    (fileChunks : FileUuid → List FileContent) : List WorkerClientMessage :=
  .WorkerDone results outputs ::
    (outputs.flatMap (fun p => uploadFrames p.1 p.2 (fileChunks p.1)) ++
      [.GetWork])

/-- One message `p` precedes another message `q` on a channel trace. -/
def precedes (msgs : List WorkerClientMessage)
    (p q : WorkerClientMessage) : Prop :=
  ∃ i j, i < j ∧ msgs.get? i = some p ∧ msgs.get? j = some q

/-- The kill fan-out of `sandbox_group_manager` when the sandbox at
`index` reports a result: if the status is not successful, `kill()` is
called on the sandbox of every other execution that has no result yet;
nothing is killed after a successful result. -/
def killSet (results : List (Option ExecutionResult)) (index : Nat)
    (status : ExecutionStatus) : List Nat :=
  if status.is_success then []
  else
    (List.range results.length).filter
      (fun i => i ≠ index && (results.get? i == some none))

/-- A large intact read-only blob used to exhibit the missing eviction. -/
def evictFileA : DiskFile :=
  { content := List.replicate 60 7, readonly := true, freshTimestamps := true }

/-- A second large intact read-only blob used to exhibit the missing
eviction. -/
def evictFileB : DiskFile :=
  { content := List.replicate 40 9, readonly := true, freshTimestamps := true }

/-- A store state holding 100 bytes whose persistence timestamps are
long in the past and on which no handle is held. -/
def evictState : FileStoreState :=
  { disk := [(hashContent evictFileA.content, evictFileA),
             (hashContent evictFileB.content, evictFileB)]
    items := [(hashContent evictFileA.content, -1000),
              (hashContent evictFileB.content, -1000)]
    now := 0 }

/-- Claim C4: the specification (and the crate's own doc comment, which
promises that "the least-recently-used files are removed automatically",
and `main_server`, which passes `max_cache`/`min_cache` byte budgets to
a three-argument `FileStore::new`) requires eviction down to `min_cache`
at the tail of every `store`/`get`; the `FileStore` implementation in
the snapshot takes no size budget and never deletes an entry for space.
At this failing input the store holds 100 bytes of stale, unreferenced
entries — more than any cap such as the 10-byte `max_cache` of the
claim's scenario — and both a `store` of an existing key and a `get`
leave every blob on disk, with total usage still 100. -/
theorem filestore_no_eviction :
    evictState.totalSize = 100 ∧
    (evictState.store (hashContent evictFileA.content) [[1, 2, 3]]).1.disk =
      evictState.disk ∧
    ((evictState.store (hashContent evictFileA.content) [[1, 2, 3]]).1.totalSize
      = 100) ∧
    (evictState.get (hashContent evictFileB.content)).1.disk = evictState.disk ∧
    ((evictState.get (hashContent evictFileB.content)).1.totalSize = 100) := by
  refine ⟨by decide, by decide, by decide, by decide, by decide⟩

/-- Claim C5, counterexample: with `store_info` present but unparsable,
`FileStore::new` does not return a working store with an empty index —
it propagates the parse error (the claim states it "logs the problem
and starts with an empty index, returning a working store instead of an
error"). -/
theorem filestore_new_corrupt_counterexample :
    FileStore.new .corrupt [] 0 = .error "cannot parse store_info" := rfl

/-- Claim C5, amended: when the `store_info` index file exists but cannot
be parsed, `FileStore::new` returns the parse error and refuses to
start (the crate's own `test_corrupted_filestore` asserts
`FileStore::new(..).is_err()`); when the index parses, entries whose
blob file no longer exists are dropped. -/
theorem filestore_new_corrupt_errors
    (disk : List (FileStoreKey × DiskFile)) (now : Int) :
    (∃ msg, FileStore.new .corrupt disk now = .error msg) ∧
    (∀ items, FileStore.new (.parsed items) disk now =
      .ok { disk := disk,
            items := items.filter (fun p => (lookupKey disk p.1).isSome),
            now := now }) :=
  ⟨⟨"cannot parse store_info", rfl⟩, fun _ => rfl⟩

/-- Claim C6: when `cache.bin` exists but fails to deserialize,
`Cache::new` returns `Ok` with an empty entries map instead of
propagating the parse error. -/
theorem cache_new_broken_resets (e : String) :
    Cache.new true (.error e) = .ok { entries := [] } := rfl

/-- Claim C7: a second `store` for a key already present (and intact)
consumes the whole iterator, leaves every blob on disk unchanged (the
file is not rewritten), refreshes the entry's persistence timestamp to
`now + 600`, and the blob stays read-only. -/
theorem filestore_store_existing (s : FileStoreState) (k : FileStoreKey)
    (f : DiskFile) (chunks : List FileContent)
    (hdisk : lookupKey s.disk k = some f)
    (hintact : checkIntegrity f k = true)
    (hro : f.readonly = true) :
    (s.store k chunks).2 = chunks.length ∧
    (s.store k chunks).1.disk = s.disk ∧
    lookupKey (s.store k chunks).1.items k = some (s.now + persistencyDuration) ∧
    lookupKey (s.store k chunks).1.disk k = some f ∧
    f.readonly = true := by
  have hstep : s.hasKeyStep k = (s, true) := by
    unfold FileStoreState.hasKeyStep
    rw [hdisk]
    simp [hintact]
  unfold FileStoreState.store
  rw [hstep]
  exact ⟨rfl, rfl, lookupKey_setKey_self _ _ _, hdisk, hro⟩

/-- A store state holding one intact read-only blob, used to witness the
second-store behavior. -/
def storedState : FileStoreState :=
  { disk := [([1], { content := [1], readonly := true, freshTimestamps := true })]
    items := [([1], 3)]
    now := 10 }

/-- Witness for claim C7 at a concrete store: the second `store` of key
`[1]` consumes both chunks, rewrites nothing and refreshes the
timestamp to `10 + 600`. -/
theorem filestore_store_existing_witness :
    (storedState.store [1] [[4], [5]]).2 = 2 ∧
    (storedState.store [1] [[4], [5]]).1.disk = storedState.disk ∧
    lookupKey (storedState.store [1] [[4], [5]]).1.items [1] =
      some (storedState.now + persistencyDuration) ∧
    lookupKey (storedState.store [1] [[4], [5]]).1.disk [1] =
      some { content := [1], readonly := true, freshTimestamps := true } ∧
    ({ content := [1], readonly := true, freshTimestamps := true } : DiskFile).readonly
      = true :=
  filestore_store_existing storedState [1]
    { content := [1], readonly := true, freshTimestamps := true }
    [[4], [5]] (by decide) (by decide) (by decide)

/-- A successful sample result used in the worker message trace. -/
def sampleResult : ExecutionResult :=
  { status := .Success, was_killed := false, was_cached := false
    resources := { cpu_time := 0, sys_time := 0, wall_time := 0, memory := 0 }
    stdout := none, stderr := none }

/-- The trace sent by the group manager for a group with one result and
one output file. -/
def sampleTrace : List WorkerClientMessage :=
  managerMessages [sampleResult] [(0, [7])] (fun _ => [[9]])

/-- Claim C8, counterexample: in the trace of a completed group with one
output, the output's `ProvideFile` transfer does not precede the
`WorkerDone` message — `WorkerDone` is the first message on the channel
and the upload follows it. -/
theorem worker_done_first_counterexample :
    ¬ precedes sampleTrace (.ProvideFile 0 [7])
        (.WorkerDone [sampleResult] [(0, [7])]) := by
  rintro ⟨i, j, hij, hi, hj⟩
  have hjlen : j < sampleTrace.length := (List.get?_eq_some.mp hj).1
  have hlen : sampleTrace.length = 5 := by decide
  rw [hlen] at hjlen
  interval_cases j
  · omega
  all_goals revert hj; decide

/-- Claim C8, amended: the worker sends `WorkerDone` first — it is the
head of the channel trace of a completed group — and every `ProvideFile`
output transfer strictly follows it; the outputs are therefore uploaded
after, not before, the server receives `WorkerDone`. -/
theorem worker_done_precedes_uploads (results : List ExecutionResult)
    (outputs : List (FileUuid × FileStoreKey))
    (fileChunks : FileUuid → List FileContent) :
    (managerMessages results outputs fileChunks).get? 0 =
      some (.WorkerDone results outputs) ∧
    ∀ u k j, (managerMessages results outputs fileChunks).get? j =
        some (.ProvideFile u k) → 0 < j := by
  refine ⟨rfl, fun u k j h => ?_⟩
  match j with
  | 0 => simp [managerMessages] at h
  | j + 1 => exact Nat.succ_pos j

/-- Witness for claim C8 at the sample trace: the `ProvideFile` frame
sits at position 1, strictly after the `WorkerDone` frame at position
0. -/
theorem worker_done_precedes_uploads_witness :
    0 < 1 ∧ sampleTrace.get? 0 =
      some (.WorkerDone [sampleResult] [(0, [7])]) :=
  ⟨(worker_done_precedes_uploads [sampleResult] [(0, [7])]
      (fun _ => [[9]])).2 0 [7] 1 rfl,
   (worker_done_precedes_uploads [sampleResult] [(0, [7])]
      (fun _ => [[9]])).1⟩

/-- Claim C10: when the sandbox at `index` reports its result, the group
manager kills exactly the sandboxes of the other executions that have
not yet produced a result, and only when the reported status is not a
success — never the sandbox that just finished, never one that already
finished, and none at all on success. -/
theorem worker_kill_set_characterization
    (results : List (Option ExecutionResult)) (index : Nat)
    (status : ExecutionStatus) (i : Nat) :
    i ∈ killSet results index status ↔
      (status.is_success = false ∧ i < results.length ∧ i ≠ index ∧
        results.get? i = some none) := by
  unfold killSet
  by_cases h : status.is_success
  · simp [h]
  · simp only [Bool.not_eq_true] at h
    simp [h, List.mem_filter, List.mem_range, and_assoc]

theorem lookupKey_chmodKey_self (l : List (String × FileEntry)) (d : String) :
    lookupKey (chmodKey l d) d =
      (lookupKey l d).map (fun e => { e with mode := 0o755 }) := by
  induction l with
  | nil => rfl
  | cons hd tl ih =>
    obtain ⟨a, b⟩ := hd
    by_cases h : a = d
    · rw [chmodKey, if_pos h]
      rw [lookupKey, if_pos h, lookupKey, if_pos h]
      rfl
    · rw [chmodKey, if_neg h]
      rw [lookupKey, if_neg h, lookupKey, if_neg h, ih]

theorem lookupKey_chmodKey_content (l : List (String × FileEntry))
    (d q : String) :
    (lookupKey (chmodKey l d) q).map FileEntry.content =
      (lookupKey l q).map FileEntry.content := by
  induction l with
  | nil => rfl
  | cons hd tl ih =>
    obtain ⟨a, b⟩ := hd
    by_cases h : a = d
    · rw [chmodKey, if_pos h]
      by_cases hq : a = q
      · rw [lookupKey, if_pos hq, lookupKey, if_pos hq]
        rfl
      · rw [lookupKey, if_neg hq, lookupKey, if_neg hq, ih]
    · rw [chmodKey, if_neg h]
      by_cases hq : a = q
      · rw [lookupKey, if_pos hq, lookupKey, if_pos hq]
      · rw [lookupKey, if_neg hq, lookupKey, if_neg hq, ih]

theorem lookupKey_chmodKey_none (l : List (String × FileEntry)) (d q : String)
    (h : lookupKey l q = none) : lookupKey (chmodKey l d) q = none := by
  have hc := lookupKey_chmodKey_content l d q
  rw [h] at hc
  cases hx : lookupKey (chmodKey l d) q with
  | none => rfl
  | some v =>
    rw [hx] at hc
    simp at hc

/-- Claim C9: for a watched file whose callbacks carry a
`WriteToCallback`, (1) when `success` is false and `allow_failure` is
false the write is suppressed entirely — the destination's bytes are
unchanged and a missing destination is not created; (2) when the write
happens and the executable flag is set, the destination holds the
streamed bytes with mode `0755` after the stream ends; (3) when the
flag is not set no chmod is performed — the destination holds the
streamed bytes with the default creation mode. -/
theorem client_write_callback_semantics
    (file_callbacks : List (FileUuid × FileCallbacks)) (uuid : FileUuid)
    (success : Bool) (chunks : List FileContent) (hint : Option String)
    (fs : List (String × FileEntry)) (cb : FileCallbacks) (w : WriteToCallback)
    (hcb : lookupKey file_callbacks uuid = some cb)
    (hw : cb.write_to = some w) :
    (success = false → w.allow_failure = false →
      (lookupKey
          (processProvidedFile file_callbacks uuid success chunks hint fs).1
          w.dest).map FileEntry.content =
        (lookupKey fs w.dest).map FileEntry.content ∧
      (lookupKey fs w.dest = none →
        lookupKey
          (processProvidedFile file_callbacks uuid success chunks hint fs).1
          w.dest = none)) ∧
    ((success = true ∨ w.allow_failure = true) → hint ≠ some w.dest →
      w.executable = true →
      lookupKey
          (processProvidedFile file_callbacks uuid success chunks hint fs).1
          w.dest =
        some { content := chunks.flatten, mode := 0o755 }) ∧
    ((success = true ∨ w.allow_failure = true) → hint ≠ some w.dest →
      w.executable = false →
      lookupKey
          (processProvidedFile file_callbacks uuid success chunks hint fs).1
          w.dest =
        some { content := chunks.flatten, mode := defaultMode }) := by
  obtain ⟨d, ex, af⟩ := w
  simp only [processProvidedFile, hcb, hw]
  refine ⟨?_, ?_, ?_⟩
  · intro hs ha
    replace ha : af = false := ha
    subst hs
    subst ha
    simp only [Bool.not_false, Bool.and_self, if_true]
    by_cases hc : (ex && (lookupKey fs d).isSome) = true
    · simp only [hc, if_true]
      exact ⟨lookupKey_chmodKey_content fs d d,
             fun h => lookupKey_chmodKey_none fs d d h⟩
    · simp only [Bool.not_eq_true] at hc
      simp only [hc, Bool.false_eq_true, if_false]
      exact ⟨trivial, fun h => h⟩
  · intro hsa hhint hex
    replace hex : ex = true := hex
    replace hhint : hint ≠ some d := hhint
    subst hex
    have hcond : (!success && !af) = false := by
      cases hsa with
      | inl h => simp [h]
      | inr h =>
        replace h : af = true := h
        simp [h]
    simp only [hcond, Bool.false_eq_true, if_false, if_neg hhint]
    have hlk : lookupKey (setKey fs d
        { content := chunks.flatten, mode := defaultMode }) d =
        some { content := chunks.flatten, mode := defaultMode } :=
      lookupKey_setKey_self fs d _
    simp only [hlk, Option.isSome_some, Bool.true_and, if_true]
    rw [lookupKey_chmodKey_self, hlk]
    rfl
  · intro hsa hhint hex
    replace hex : ex = false := hex
    replace hhint : hint ≠ some d := hhint
    subst hex
    have hcond : (!success && !af) = false := by
      cases hsa with
      | inl h => simp [h]
      | inr h =>
        replace h : af = true := h
        simp [h]
    simp only [hcond, Bool.false_eq_true, if_false, if_neg hhint,
      Bool.false_and]
    exact lookupKey_setKey_self fs d _

/-- A write-to-disk callback for an executable destination. -/
def sampleWriteTo : WriteToCallback :=
  { dest := "d", executable := true, allow_failure := false }

/-- A callback registry watching file 0 with the sample write sink. -/
def sampleCallbacks : List (FileUuid × FileCallbacks) :=
  [(0, { write_to := some sampleWriteTo, get_content := none })]

/-- Witness for claim C9: streaming a successful watched file through
the sample executable callback creates the destination with the
streamed bytes and mode `0755`. -/
theorem client_write_callback_semantics_witness :
    lookupKey (processProvidedFile sampleCallbacks 0 true [[1], [2]] none []).1
        sampleWriteTo.dest = some { content := [1, 2], mode := 0o755 } :=
  (client_write_callback_semantics sampleCallbacks 0 true [[1], [2]] none []
      { write_to := some sampleWriteTo, get_content := none } sampleWriteTo
      rfl rfl).2.1
    (Or.inl rfl) (fun h => Option.noConfusion h) rfl

/-- The claim-level reading of one dimension of the limits order: if the
dimension is present on the right, on the left it is either absent or
numerically greater-or-equal. -/
def dimLRProp {α : Type} [LinearOrder α] (a b : Option α) : Prop :=
  ∀ v, b = some v → a = none ∨ ∃ w, a = some w ∧ v ≤ w

/-- The claim-level reading of "L1 is less restrictive than L2": every
limit dimension present in L2 is, in L1, either absent or numerically
greater-or-equal. -/
def lessRestrictiveProp (l1 l2 : ExecutionLimits) : Prop :=
  dimLRProp l1.cpu_time l2.cpu_time ∧ dimLRProp l1.sys_time l2.sys_time ∧
  dimLRProp l1.wall_time l2.wall_time ∧ dimLRProp l1.memory l2.memory

theorem dimLessRestrictive_iff {α : Type} [LinearOrder α] (a b : Option α) :
    dimLessRestrictive a b = true ↔ dimLRProp a b := by
  cases a with
  | none =>
    cases b <;> simp [dimLessRestrictive, dimLRProp]
  | some w =>
    cases b with
    | none =>
      simp only [dimLessRestrictive, dimLRProp, true_iff]
      intro v hv
      exact absurd hv (by simp)
    | some v =>
      simp only [dimLessRestrictive, dimLRProp, decide_eq_true_eq]
      constructor
      · intro h u hu
        cases hu
        exact Or.inr ⟨w, rfl, h⟩
      · intro h
        rcases h v rfl with h1 | ⟨u, hu, huv⟩
        · exact absurd h1 (by simp)
        · cases hu
          exact huv

theorem less_restrictive_iff (l1 l2 : ExecutionLimits) :
    l1.less_restrictive l2 = true ↔ lessRestrictiveProp l1 l2 := by
  simp [ExecutionLimits.less_restrictive, Bool.and_eq_true,
    dimLessRestrictive_iff, lessRestrictiveProp, and_assoc]

theorem dimLessRestrictive_refl {α : Type} [LinearOrder α] (a : Option α) :
    dimLessRestrictive a a = true := by
  cases a <;> simp [dimLessRestrictive]

theorem less_restrictive_refl (l : ExecutionLimits) :
    l.less_restrictive l = true := by
  simp [ExecutionLimits.less_restrictive, dimLessRestrictive_refl]

/-- The reuse condition of the claim for one (execution, cached item)
pair: the recorded status is `Success` and the recorded limits are less
restrictive than the group's, or a failure by resource limit with the
group's limits less restrictive than the recorded ones, or a signal, or
a nonzero return code. -/
def reuseCondition (e : Execution) (item : CacheItem) : Prop :=
  (item.result.status = .Success ∧ lessRestrictiveProp item.limits e.limits) ∨
  (item.result.status.isLimitFailure = true ∧
    lessRestrictiveProp e.limits item.limits) ∨
  (∃ s name, item.result.status = .Signal s name) ∨
  (∃ c, c ≠ 0 ∧ item.result.status = .ReturnCode c)

theorem item_compatible_iff (e : Execution) (item : CacheItem)
    (h : item.result.status ≠ .ReturnCode 0) :
    item.is_compatible e = true ↔ reuseCondition e item := by
  unfold CacheItem.is_compatible reuseCondition
  cases hs : item.result.status with
  | Success =>
    simp [hs, less_restrictive_iff, ExecutionStatus.isLimitFailure]
  | ReturnCode c =>
    have hc : c ≠ 0 := by
      intro h0
      rw [h0] at hs
      exact h hs
    simp only [hs, true_iff, ExecutionStatus.isLimitFailure]
    refine Or.inr (Or.inr (Or.inr ⟨c, hc, rfl⟩))
  | Signal s name =>
    simp only [hs, true_iff, ExecutionStatus.isLimitFailure]
    exact Or.inr (Or.inr (Or.inl ⟨s, name, rfl⟩))
  | TimeLimitExceeded =>
    simp [hs, less_restrictive_iff, ExecutionStatus.isLimitFailure]
  | SysTimeLimitExceeded =>
    simp [hs, less_restrictive_iff, ExecutionStatus.isLimitFailure]
  | WallTimeLimitExceeded =>
    simp [hs, less_restrictive_iff, ExecutionStatus.isLimitFailure]
  | MemoryLimitExceeded =>
    simp [hs, less_restrictive_iff, ExecutionStatus.isLimitFailure]
  | InternalError msg =>
    simp [hs, ExecutionStatus.isLimitFailure]

/-- A cache holding exactly one stored entry under the key of the given
group and resolution map. -/
def singleEntryCache (g : ExecutionGroup) (m : List (FileUuid × FileStoreKey))
    (entry : CacheEntry) : Cache :=
  { entries := [(CacheKey.from_execution_group g m, [entry])] }

theorem lessRestrictiveProp_refl (l : ExecutionLimits) :
    lessRestrictiveProp l l :=
  (less_restrictive_iff l l).mp (less_restrictive_refl l)

/-- Claim C1: looking up a group (per-execution limits `L2`) against a
stored entry (per-execution limits `L1`) whose outputs rematerialize,
the entry is reused — the lookup is a hit — exactly when, for every
execution and its recorded item, either the recorded status is
`Success` and `L1` is less restrictive than `L2` (every limit dimension
present in `L2` is, in `L1`, absent or numerically greater-or-equal),
or the status is a failure by wall/cpu/memory limit and `L2` is less
restrictive than `L1`, or it is a signal or nonzero return code,
regardless of the limits.  Recorded statuses are the categorizer's
output, so `ReturnCode 0` (which the categorizer maps to `Success`)
is excluded. -/
theorem cache_reuse_characterization (g : ExecutionGroup)
    (m : List (FileUuid × FileStoreKey)) (store : FileStoreState)
    (entry : CacheEntry) (outs : List (FileUuid × FileStoreKey))
    (houts : entry.outputsFor store = some outs)
    (hwf : ∀ p ∈ g.executions.zip entry.items,
      p.2.result.status ≠ .ReturnCode 0) :
    (Cache.get (singleEntryCache g m entry) g m store).isHit = true ↔
      ∀ p ∈ g.executions.zip entry.items, reuseCondition p.1 p.2 := by
  have hcomp : entry.is_compatible g = true ↔
      ∀ p ∈ g.executions.zip entry.items, reuseCondition p.1 p.2 := by
    unfold CacheEntry.is_compatible
    rw [List.all_eq_true]
    exact ⟨fun h p hp => (item_compatible_iff p.1 p.2 (hwf p hp)).mp (h p hp),
           fun h p hp => (item_compatible_iff p.1 p.2 (hwf p hp)).mpr (h p hp)⟩
  unfold Cache.get singleEntryCache
  have hlk : lookupKey [(CacheKey.from_execution_group g m, [entry])]
      (CacheKey.from_execution_group g m) = some [entry] := by
    simp [lookupKey]
  rw [hlk]
  simp only [getLoop, houts]
  cases hc : entry.is_compatible g with
  | true =>
    simp only [if_true, CacheResult.isHit, true_iff]
    exact hcomp.mp hc
  | false =>
    rw [if_neg (by simp [hc])]
    simp only [getLoop, CacheResult.isHit, Bool.false_eq_true, false_iff]
    intro hall
    rw [hcomp.mpr hall] at hc
    exact Bool.true_eq_false.mp hc

/-- Limits constraining only cpu time, at one second. -/
def unitLimits : ExecutionLimits :=
  { cpu_time := some 1, sys_time := none, wall_time := none, memory := none }

/-- An execution with the one-second cpu limit and no files. -/
def unitExec : Execution :=
  { command := "e", args := [], env := [], limits := unitLimits,
    stdin := none, inputs := [], outputs := [] }

/-- The group holding only `unitExec`. -/
def unitGroup : ExecutionGroup := { executions := [unitExec], fifo := [] }

/-- A recorded successful item under the same one-second cpu limit. -/
def unitItem : CacheItem :=
  { result := { status := .Success, was_killed := false, was_cached := false
                resources := { cpu_time := 1, sys_time := 0, wall_time := 0,
                               memory := 0 }
                stdout := none, stderr := none }
    limits := unitLimits }

/-- The cache entry recording `unitItem` with no outputs. -/
def unitEntry : CacheEntry := { items := [unitItem], outputs := [] }

/-- An empty file store. -/
def emptyStore : FileStoreState := { disk := [], items := [], now := 0 }

/-- Witness for claim C1: a recorded `Success` under the same limits is
reused — the lookup hits, by the `Success`-and-`L1`-less-restrictive
disjunct at equal limits. -/
theorem cache_reuse_characterization_witness :
    (Cache.get (singleEntryCache unitGroup [] unitEntry) unitGroup []
      emptyStore).isHit = true :=
  (cache_reuse_characterization unitGroup [] emptyStore unitEntry [] rfl
      (by
        intro p hp
        simp only [unitGroup, unitEntry, List.zip_cons_cons, List.zip_nil_right,
          List.mem_singleton] at hp
        subst hp
        simp [unitItem])).mpr
    (by
      intro p hp
      simp only [unitGroup, unitEntry, List.zip_cons_cons, List.zip_nil_right,
        List.mem_singleton] at hp
      subst hp
      exact Or.inl ⟨rfl, lessRestrictiveProp_refl unitLimits⟩)

theorem getLoop_hit (g : ExecutionGroup) (store : FileStoreState)
    (res : List ExecutionResult) (outs : List (FileUuid × FileStoreKey)) :
    ∀ set : List CacheEntry, getLoop g store set = .Hit res outs →
      ∃ e ∈ set, e.outputsFor store = some outs ∧ e.is_compatible g = true ∧
        res = hitResults g e := by
  intro set
  induction set with
  | nil =>
    intro h
    simp [getLoop] at h
  | cons e rest ih =>
    intro h
    rw [getLoop] at h
    cases ho : e.outputsFor store with
    | none =>
      rw [ho] at h
      obtain ⟨e2, hm, h1, h2, h3⟩ := ih h
      exact ⟨e2, List.mem_cons_of_mem e hm, h1, h2, h3⟩
    | some o =>
      simp only [ho] at h
      by_cases hc : e.is_compatible g = true
      · rw [if_pos hc] at h
        cases h
        exact ⟨e, List.mem_cons_self e rest, ho, hc, rfl⟩
      · rw [if_neg hc] at h
        obtain ⟨e2, hm, h1, h2, h3⟩ := ih h
        exact ⟨e2, List.mem_cons_of_mem e hm, h1, h2, h3⟩

/-- The prior limits `L1`: cpu time two seconds. -/
def priorLimits : ExecutionLimits :=
  { cpu_time := some 2, sys_time := none, wall_time := none, memory := none }

/-- The new, tighter limits `L2`: cpu time one and a half seconds. -/
def newLimits : ExecutionLimits :=
  { cpu_time := some (mkRat 3 2), sys_time := none, wall_time := none,
    memory := none }

/-- The recorded resource usage: 1.8 seconds of cpu time. -/
def recordedUsage : ExecutionResourcesUsage :=
  { cpu_time := mkRat 9 5, sys_time := 0, wall_time := 0, memory := 0 }

/-- The execution looked up under the tighter limits. -/
def tightenedExec : Execution :=
  { command := "", args := [], env := [], limits := newLimits,
    stdin := none, inputs := [], outputs := [] }

/-- The group holding only `tightenedExec`. -/
def tightenedGroup : ExecutionGroup :=
  { executions := [tightenedExec], fifo := [] }

/-- The cached item: a `Success` recorded at 1.8 s cpu under the prior
two-second limit. -/
def recordedItem : CacheItem :=
  { result := { status := .Success, was_killed := false, was_cached := false
                resources := recordedUsage, stdout := none, stderr := none }
    limits := priorLimits }

/-- The cache entry recording `recordedItem` with no outputs. -/
def recordedEntry : CacheEntry := { items := [recordedItem], outputs := [] }

/-- The result the tightened lookup must report: served from the cache
(`was_cached`), recategorized as `TimeLimitExceeded`. -/
def tleExpected : ExecutionResult :=
  { status := .TimeLimitExceeded, was_killed := false, was_cached := true
    resources := recordedUsage, stdout := none, stderr := none }

/-- Claim C2: every result of a cache hit has `was_cached = true` and is
the recomputation of the stored item against the new execution's limits
and the recorded resource usage; in particular the cached `Success` at
1.8 s cpu under a prior 2 s limit, looked up with a 1.5 s limit, is
still served from the cache but reported as `TimeLimitExceeded`. -/
theorem cache_hit_recomputes_status :
    (∀ (c : Cache) (g : ExecutionGroup) (m : List (FileUuid × FileStoreKey))
        (store : FileStoreState) (res : List ExecutionResult)
        (outs : List (FileUuid × FileStoreKey)),
      Cache.get c g m store = .Hit res outs →
      ∃ e, e.outputsFor store = some outs ∧ res = hitResults g e ∧
        ∀ r ∈ res, r.was_cached = true) ∧
    (Cache.get (singleEntryCache tightenedGroup [] recordedEntry)
        tightenedGroup [] emptyStore = .Hit [tleExpected] [] ∧
      tleExpected.status = .TimeLimitExceeded ∧
      tleExpected.was_cached = true) := by
  constructor
  · intro c g m store res outs h
    unfold Cache.get at h
    cases hlk : lookupKey c.entries (CacheKey.from_execution_group g m) with
    | none =>
      rw [hlk] at h
      exact absurd h (by simp)
    | some set =>
      rw [hlk] at h
      obtain ⟨e, _, houts, _, hres⟩ := getLoop_hit g store res outs set h
      refine ⟨e, houts, hres, ?_⟩
      intro r hr
      rw [hres] at hr
      unfold hitResults at hr
      obtain ⟨p, _, hp⟩ := List.mem_map.mp hr
      rw [← hp]
      rfl
  · exact ⟨by decide, rfl, rfl⟩

/-- Witness for claim C2 at the limit-tightening scenario: the hit's
results are the recomputation of the stored entry and carry
`was_cached`. -/
theorem cache_hit_recomputes_status_witness :
    ∃ e, e.outputsFor emptyStore = some [] ∧
      [tleExpected] = hitResults tightenedGroup e ∧
      ∀ r ∈ [tleExpected], r.was_cached = true :=
  cache_hit_recomputes_status.1
    (singleEntryCache tightenedGroup [] recordedEntry) tightenedGroup []
    emptyStore [tleExpected] [] (by decide)

/-- Unconstrained limits. -/
def noLimits : ExecutionLimits :=
  { cpu_time := none, sys_time := none, wall_time := none, memory := none }

/-- An execution with no limits and no files. -/
def internalExec : Execution :=
  { command := "", args := [], env := [], limits := noLimits,
    stdin := none, inputs := [], outputs := [] }

/-- The group holding only `internalExec`. -/
def internalGroup : ExecutionGroup :=
  { executions := [internalExec], fifo := [] }

/-- A result whose status is an internal sandbox error. -/
def internalResult : ExecutionResult :=
  { status := .InternalError "", was_killed := false, was_cached := false
    resources := { cpu_time := 0, sys_time := 0, wall_time := 0, memory := 0 }
    stdout := none, stderr := none }

/-- A cache with no entries. -/
def emptyCache : Cache := { entries := [] }

/-- Claim C3, counterexample: inserting a group whose result is an
internal error and immediately looking it up with the identical group
and resolution map returns `Miss`, not `Hit` — no compatibility clause
covers an `InternalError` status, so the freshly stored entry is not
reused. -/
theorem cache_roundtrip_counterexample :
    Cache.get (Cache.insert emptyCache internalGroup [] [internalResult])
      internalGroup [] emptyStore = .Miss := by decide

theorem compat_zip_self (es : List Execution) (rs : List ExecutionResult)
    (hlen : rs.length = es.length)
    (hst : ∀ r ∈ rs, Cache.is_cacheable r = true) :
    ((es.zip (List.zipWith
        (fun e r => ({ result := r, limits := e.limits } : CacheItem)) es rs)).all
      (fun p => p.2.is_compatible p.1)) = true := by
  induction es generalizing rs with
  | nil => simp
  | cons e tail ih =>
    cases rs with
    | nil => simp at hlen
    | cons r rtail =>
      simp only [List.zipWith_cons_cons, List.zip_cons_cons, List.all_cons,
        Bool.and_eq_true]
      constructor
      · have hr := hst r (List.mem_cons_self r rtail)
        unfold Cache.is_cacheable at hr
        cases hs : r.status with
        | Success =>
          simp [CacheItem.is_compatible, hs, less_restrictive_refl]
        | ReturnCode c => simp [CacheItem.is_compatible, hs]
        | Signal s name => simp [CacheItem.is_compatible, hs]
        | TimeLimitExceeded =>
          simp [CacheItem.is_compatible, hs, less_restrictive_refl]
        | SysTimeLimitExceeded =>
          simp [CacheItem.is_compatible, hs, less_restrictive_refl]
        | WallTimeLimitExceeded =>
          simp [CacheItem.is_compatible, hs, less_restrictive_refl]
        | MemoryLimitExceeded =>
          simp [CacheItem.is_compatible, hs, less_restrictive_refl]
        | InternalError msg =>
          rw [hs] at hr
          exact absurd hr (by simp)
      · exact ih rtail (by simpa using hlen)
          (fun r2 h2 => hst r2 (List.mem_cons_of_mem r h2))

theorem outputs_all_present (g : ExecutionGroup)
    (m : List (FileUuid × FileStoreKey)) (store : FileStoreState)
    (rs : List ExecutionResult)
    (h : ∀ u ∈ g.outputUuids,
      ∃ k, lookupKey m u = some k ∧ store.hasKeyPure k = true) :
    (CacheEntry.from_execution_group g m rs).outputs.all
      (fun p => store.hasKeyPure p.2) = true := by
  rw [List.all_eq_true]
  intro p hp
  unfold CacheEntry.from_execution_group at hp
  obtain ⟨u, hu, hf⟩ := List.mem_filterMap.mp hp
  cases hm : lookupKey m u with
  | none =>
    rw [hm] at hf
    exact absurd hf (by simp)
  | some k =>
    rw [hm] at hf
    have hp2 : (u, k) = p := Option.some.inj hf
    obtain ⟨k2, hk2, hpure⟩ := h u hu
    rw [hm] at hk2
    cases hk2
    rw [← hp2]
    exact hpure

/-- Claim C3, amended: for a cache holding no entry yet under the key of
`(g, m)`, with one result per execution, every result cacheable (no
internal error) and every declared output resolvable through `m` to a
key present and intact in the store, insert followed by an immediate
lookup with the identical group and map returns `Hit`, and the output
keys returned are exactly the keys recorded at insertion. -/
theorem cache_insert_get_roundtrip (c : Cache) (g : ExecutionGroup)
    (m : List (FileUuid × FileStoreKey)) (store : FileStoreState)
    (results : List ExecutionResult)
    (hkey : lookupKey c.entries (CacheKey.from_execution_group g m) = none)
    (hlen : results.length = g.executions.length)
    (hst : ∀ r ∈ results, Cache.is_cacheable r = true)
    (houts : ∀ u ∈ g.outputUuids,
      ∃ k, lookupKey m u = some k ∧ store.hasKeyPure k = true) :
    Cache.get (Cache.insert c g m results) g m store =
      .Hit (hitResults g (CacheEntry.from_execution_group g m results))
        (CacheEntry.from_execution_group g m results).outputs := by
  have hcomp : (CacheEntry.from_execution_group g m results).is_compatible g
      = true := by
    unfold CacheEntry.is_compatible CacheEntry.from_execution_group
    exact compat_zip_self g.executions results hlen hst
  have ho : (CacheEntry.from_execution_group g m results).outputsFor store =
      some (CacheEntry.from_execution_group g m results).outputs := by
    unfold CacheEntry.outputsFor
    rw [if_pos (outputs_all_present g m store results houts)]
  have hins : Cache.insert c g m results =
      { entries := setKey c.entries (CacheKey.from_execution_group g m)
          [CacheEntry.from_execution_group g m results] } := by
    simp [Cache.insert, hkey]
  rw [hins]
  unfold Cache.get
  rw [lookupKey_setKey_self]
  simp only [getLoop, ho, if_pos hcomp]

/-- An execution declaring one output bound to logical file 5. -/
def outExec : Execution :=
  { command := "", args := [], env := [], limits := noLimits,
    stdin := none, inputs := [], outputs := [("out", 5)] }

/-- The group holding only `outExec`. -/
def outGroup : ExecutionGroup := { executions := [outExec], fifo := [] }

/-- The resolution map binding logical file 5 to the stored key. -/
def outMap : List (FileUuid × FileStoreKey) := [(5, [9])]

/-- A store holding the output blob intact. -/
def outStore : FileStoreState :=
  { disk := [([9], { content := [9], readonly := true, freshTimestamps := true })]
    items := [], now := 0 }

/-- A plain successful result. -/
def okResult : ExecutionResult :=
  { status := .Success, was_killed := false, was_cached := false
    resources := { cpu_time := 0, sys_time := 0, wall_time := 0, memory := 0 }
    stdout := none, stderr := none }

/-- Witness for the amended claim C3: on an empty cache, inserting the
one-output group and looking it up immediately hits, returning exactly
the output keys recorded at insertion. -/
theorem cache_insert_get_roundtrip_witness :
    Cache.get (Cache.insert emptyCache outGroup outMap [okResult]) outGroup
        outMap outStore =
      .Hit (hitResults outGroup
          (CacheEntry.from_execution_group outGroup outMap [okResult]))
        (CacheEntry.from_execution_group outGroup outMap [okResult]).outputs :=
  cache_insert_get_roundtrip emptyCache outGroup outMap outStore [okResult]
    rfl rfl (by decide)
    (by
      intro u hu
      have hu5 : u = 5 := by
        simpa [outGroup, outExec, ExecutionGroup.outputUuids] using hu
      subst hu5
      exact ⟨[9], rfl, rfl⟩)
